import Mathlib

/-!
Shallow embedding of the constellation view of the thoughts-in-bloom
repository (`src/constellation.js`): the similarity engine, the connection
builder, connection counting, the hierarchical layout and the storage read,
together with proofs of the specified properties.  JavaScript numbers are
modelled as rationals, JS `Set`s of strings as `Finset String`, and the
module-level `connectionStrength` threshold is passed explicitly.
-/

namespace Constellation

/-- An entry ("thought") as produced by the entry store.  `tags` is optional
because stored JSON may lack the field; `constellation.js` defaults it with
`thought.tags || []` when building nodes. -/
structure Entry where
  id : String
  text : String
  tags : Option (List String)
  date : String
  archived : Bool
deriving DecidableEq

/-- A graph node, as built in `loadConstellationData`:
`{ id, text, tags: thought.tags || [], date, connections: 0 }`. -/
structure Node where
  id : String
  text : String
  tags : List String
  date : String
  connections : Nat
deriving DecidableEq

/-- A link, as pushed in `calculateConnections`:
`{ source: nodes[i].id, target: nodes[j].id, strength }`. -/
structure Link where
  source : String
  target : String
  strength : ℚ
deriving DecidableEq

/-- Split a character list at every whitespace character, accumulating the
current token; the pieces of JS `split(/\s+/)`.  JS collapses whitespace
runs into one separator, which differs from per-character splitting only by
extra empty tokens, and those are removed by the length filter below. -/
def splitWs : List Char → List Char → List (List Char)
  | [], acc => [acc.reverse]
  | c :: cs, acc =>
    if c.isWhitespace then acc.reverse :: splitWs cs []
    else splitWs cs (c :: acc)

/-- The word set of a text, from `calculateSimilarity`:
`new Set(text.toLowerCase().split(/\s+/).filter(w => w.length > 3))` —
lowercase, split on whitespace, keep tokens of length strictly greater
than 3, deduplicate. -/
def wordSet (text : String) : Finset String :=
  (((splitWs (text.data.map Char.toLower) []).filter
      (fun w => 3 < w.length)).map (fun w => String.mk w)).toFinset

/-- Jaccard similarity of two string sets: `|intersection| / |union|`. -/
def jaccard (s t : Finset String) : ℚ :=
  ((s ∩ t).card : ℚ) / ((s ∪ t).card : ℚ)

/-- The tag score of `calculateSimilarity`: the Jaccard similarity of the
two tag sets when both entries have at least one tag
(`node1.tags.length > 0 && node2.tags.length > 0`), otherwise 0 (the guarded
`score += tagScore * 0.6` contributes nothing). -/
def tagScore (node1 node2 : Node) : ℚ :=
  if 0 < node1.tags.length ∧ 0 < node2.tags.length then
    jaccard node1.tags.toFinset node2.tags.toFinset
  else 0

/-- The text score of `calculateSimilarity`: the Jaccard similarity of the
two word sets when their union is non-empty (`wordUnion.size > 0`),
otherwise 0. -/
def textScore (node1 node2 : Node) : ℚ :=
  if 0 < (wordSet node1.text ∪ wordSet node2.text).card then
    jaccard (wordSet node1.text) (wordSet node2.text)
  else 0

/-- `calculateSimilarity` (constellation.js, lines 153-179):
`score = tagScore * 0.6 + textScore * 0.4`, each component guarded as in the
source (an unrealized component adds 0 to `score`). -/
def calculateSimilarity (node1 node2 : Node) : ℚ :=
  tagScore node1 node2 * (6 / 10) + textScore node1 node2 * (4 / 10)

/-- The similarity score exactly as worded by the specification: 0.6 times
the tag-set Jaccard similarity (0 when either entry has zero tags) plus 0.4
times the word-set Jaccard similarity (0 when the union of the word sets is
empty).  Written from the spec sentence, to be compared with
`calculateSimilarity`. -/
def similaritySpec (a b : Node) : ℚ :=
  (6 / 10) *
    (if a.tags = [] ∨ b.tags = [] then 0
     else jaccard a.tags.toFinset b.tags.toFinset) +
  (4 / 10) *
    (if wordSet a.text ∪ wordSet b.text = ∅ then 0
     else jaccard (wordSet a.text) (wordSet b.text))

/-- Checked variant of `calculateSimilarity` in which every division that the
source actually performs is replaced by a division that fails on a zero
denominator.  Used to show the source never divides by zero. -/
def checkedDiv (a b : ℚ) : Option ℚ :=
  if b = 0 then none else some (a / b)

/-- `calculateSimilarity` with checked divisions: performs the tag division
only under the source's guard `node1.tags.length > 0 && node2.tags.length > 0`
and the word division only under the source's guard `wordUnion.size > 0`,
returning `none` if any performed division has a zero denominator. -/
def calculateSimilarityChecked (node1 node2 : Node) : Option ℚ :=
  (if 0 < node1.tags.length ∧ 0 < node2.tags.length then
    (checkedDiv ((node1.tags.toFinset ∩ node2.tags.toFinset).card : ℚ)
        ((node1.tags.toFinset ∪ node2.tags.toFinset).card : ℚ)).map
      (fun tagS => tagS * (6 / 10))
  else some 0).bind (fun scoreAfterTags =>
    (if 0 < (wordSet node1.text ∪ wordSet node2.text).card then
      (checkedDiv (((wordSet node1.text) ∩ (wordSet node2.text)).card : ℚ)
          (((wordSet node1.text) ∪ (wordSet node2.text)).card : ℚ)).map
        (fun textS => scoreAfterTags + textS * (4 / 10))
    else some scoreAfterTags))

/-- `calculateConnections` (constellation.js, lines 126-144): for every pair
`i < j` of node indices, compute the similarity and push a link when
`strength >= connectionStrength`.  The double index loop is embedded as
structural recursion: the head node is paired with every later node in
order, then the tail is processed. -/
def calculateConnections (nodes : List Node) (connectionStrength : ℚ) :
    List Link :=
  match nodes with
  | [] => []
  | n :: rest =>
    rest.filterMap (fun m =>
      let strength := calculateSimilarity n m
      if connectionStrength ≤ strength then
        some { source := n.id, target := m.id, strength := strength }
      else none)
    ++ calculateConnections rest connectionStrength

/-- All ordered pairs of nodes in index order `i < j`, the pairs enumerated
by the double loop of `calculateConnections`. -/
def orderedPairs : List Node → List (Node × Node)
  | [] => []
  | n :: rest => rest.map (fun m => (n, m)) ++ orderedPairs rest

/-- The link `calculateConnections` builds from the pair `(p.1, p.2)`. -/
def mkLink (p : Node × Node) : Link :=
  { source := p.1.id, target := p.2.id,
    strength := calculateSimilarity p.1 p.2 }

/-- `nodes.find(n => n.id === link.source)` followed by
`sourceNode.connections++`: increment the connection count of the first
node whose id matches.  (At this point in `loadConstellationData` the link
endpoints are still plain ids, so the `link.source.id || link.source`
disjunction in the source resolves to the bare id.) -/
def incrementFirst (nodes : List Node) (id : String) : List Node :=
  match nodes with
  | [] => []
  | n :: rest =>
    if n.id = id then { n with connections := n.connections + 1 } :: rest
    else n :: incrementFirst rest id

/-- The `links.forEach` pass of `loadConstellationData` (lines 110-115):
for each link, increment the connection count of the matching source node
and of the matching target node. -/
def updateCounts (nodes : List Node) (links : List Link) : List Node :=
  links.foldl (fun acc link => incrementFirst (incrementFirst acc link.source) link.target) nodes

/-- Result of a build pass: either the empty state was rendered
(`showEmptyConstellation`) or a graph of nodes and links was built and
rendered. -/
inductive BuildResult where
  | empty : BuildResult
  | graph : List Node → List Link → BuildResult
deriving DecidableEq

/-- The node built from a thought in `loadConstellationData`:
`{ id, text, tags: thought.tags || [], date, connections: 0 }`. -/
def mkNode (thought : Entry) : Node :=
  { id := thought.id, text := thought.text, tags := thought.tags.getD [],
    date := thought.date, connections := 0 }

/-- `loadConstellationData` (constellation.js, lines 86-119): filter out
archived thoughts; if none remain, show the empty state; otherwise build
nodes with `connections: 0`, compute the links, and update the connection
counts. -/
def loadConstellationData (thoughts : List Entry) (connectionStrength : ℚ) :
    BuildResult :=
  let activeThoughts := thoughts.filter (fun t => !t.archived)
  if activeThoughts.length = 0 then .empty
  else
    let nodes := activeThoughts.map mkNode
    let links := calculateConnections nodes connectionStrength
    .graph (updateCounts nodes links) links

/-- The outcome of reading the `thoughts` key from local storage, as seen by
`getThoughts` (constellation.js, lines 622-633): the key can be absent
(`getItem` returns null), the stored string can fail to parse
(`JSON.parse` throws, caught by the `try`/`catch`), the parsed value can
fail the `Array.isArray` check, or it can be an array of entries. -/
inductive StoredItem where
  | absent : StoredItem
  | invalid : StoredItem
  | parsedNonArray : StoredItem
  | parsedArray : List Entry → StoredItem
deriving DecidableEq

/-- `getThoughts`: total on every storage state; each corrupted state
returns the empty list. -/
def getThoughts : StoredItem → List Entry
  | .absent => []
  | .invalid => []
  | .parsedNonArray => []
  | .parsedArray entries => entries

/-- The comparator of `applyHierarchicalLayout`:
`[...nodes].sort((a, b) => b.connections - a.connections)` sorts descending
by connection count; JS `Array.prototype.sort` is stable, which
`List.mergeSort` with a non-strict comparator reproduces. -/
def byConnectionsDesc (a b : Node) : Bool :=
  b.connections ≤ a.connections

/-- The sorted node array of `applyHierarchicalLayout`. -/
def hierarchicalSorted (nodes : List Node) : List Node :=
  nodes.mergeSort byConnectionsDesc

/-- The number of nodes per layer in `applyHierarchicalLayout`:
`Math.ceil(sortedNodes.length / layers)` with `layers = 5`. -/
def nodesPerLayerOf (n : Nat) : Nat :=
  (n + 5 - 1) / 5

/-- The `(x, y)` position `applyHierarchicalLayout` assigns to the node of
rank `i` among `n` sorted nodes:
`layer = Math.floor(i / nodesPerLayer)`, `posInLayer = i % nodesPerLayer`,
`totalInLayer = Math.min(nodesPerLayer, n - layer * nodesPerLayer)`,
`x = width / (totalInLayer + 1) * (posInLayer + 1)`,
`y = height / (layers + 1) * (layer + 1)` with `layers = 5`. -/
def hierarchicalPosition (n : Nat) (width height : ℚ) (i : Nat) : ℚ × ℚ :=
  let layers : Nat := 5
  let nodesPerLayer := nodesPerLayerOf n
  let layer := i / nodesPerLayer
  let posInLayer := i % nodesPerLayer
  let totalInLayer := min nodesPerLayer (n - layer * nodesPerLayer)
  ((width / (totalInLayer + 1)) * (posInLayer + 1),
    (height / (layers + 1)) * (layer + 1))

/-- `applyHierarchicalLayout` (constellation.js, lines 310-333): sort
descending by connections, then assign each node its rank-derived layered
position.  Returns each node with its assigned `(x, y)` position, in rank
order. -/
def applyHierarchicalLayout (nodes : List Node) (width height : ℚ) :
    List (Node × ℚ × ℚ) :=
  let sortedNodes := hierarchicalSorted nodes
  sortedNodes.enum.map (fun p =>
    (p.2, hierarchicalPosition sortedNodes.length width height p.1))

/-! ## Similarity engine lemmas -/

theorem jaccard_comm (s t : Finset String) : jaccard s t = jaccard t s := by
  unfold jaccard
  rw [Finset.inter_comm, Finset.union_comm]

theorem jaccard_nonneg (s t : Finset String) : 0 ≤ jaccard s t := by
  unfold jaccard
  positivity

theorem jaccard_le_one (s t : Finset String) : jaccard s t ≤ 1 := by
  unfold jaccard
  rcases Nat.eq_zero_or_pos (s ∪ t).card with h | h
  · simp [h]
  · rw [div_le_one (by exact_mod_cast h)]
    exact_mod_cast Finset.card_le_card (Finset.inter_subset_union)

theorem jaccard_self_of_nonempty {s : Finset String} (h : s.Nonempty) :
    jaccard s s = 1 := by
  unfold jaccard
  rw [Finset.inter_self, Finset.union_self]
  have hc : s.card ≠ 0 := Finset.card_ne_zero.mpr h
  exact div_self (by exact_mod_cast hc)

theorem tagScore_nonneg (a b : Node) : 0 ≤ tagScore a b := by
  unfold tagScore
  split
  · exact jaccard_nonneg _ _
  · exact le_refl 0

theorem tagScore_le_one (a b : Node) : tagScore a b ≤ 1 := by
  unfold tagScore
  split
  · exact jaccard_le_one _ _
  · exact zero_le_one

theorem textScore_nonneg (a b : Node) : 0 ≤ textScore a b := by
  unfold textScore
  split
  · exact jaccard_nonneg _ _
  · exact le_refl 0

theorem textScore_le_one (a b : Node) : textScore a b ≤ 1 := by
  unfold textScore
  split
  · exact jaccard_le_one _ _
  · exact zero_le_one

theorem tagScore_comm (a b : Node) : tagScore a b = tagScore b a := by
  unfold tagScore
  split_ifs with h1 h2 h2
  · exact jaccard_comm _ _
  · exact absurd ⟨h1.2, h1.1⟩ h2
  · exact absurd ⟨h2.2, h2.1⟩ h1
  · rfl

theorem textScore_comm (a b : Node) : textScore a b = textScore b a := by
  unfold textScore
  split_ifs with h1 h2 h2
  · exact jaccard_comm _ _
  · exact absurd (by rwa [Finset.union_comm] at h1) h2
  · exact absurd (by rwa [Finset.union_comm] at h2) h1
  · rfl

/-- **C1.** `calculateSimilarity` is exactly the specified weighted sum:
0.6 times the tag-set Jaccard similarity, contributing 0 when either entry
has zero tags, plus 0.4 times the word-set Jaccard similarity, contributing
0 when the union of the word sets is empty. -/
theorem calculateSimilarity_eq_similaritySpec (a b : Node) :
    calculateSimilarity a b = similaritySpec a b := by
  unfold calculateSimilarity similaritySpec
  have htag : tagScore a b * (6 / 10) =
      (6 / 10 : ℚ) * (if a.tags = [] ∨ b.tags = [] then 0
        else jaccard a.tags.toFinset b.tags.toFinset) := by
    unfold tagScore
    by_cases h : a.tags = [] ∨ b.tags = []
    · rw [if_pos h, if_neg, mul_zero, zero_mul]
      rcases h with h | h <;> simp [h]
    · have hne := h
      push_neg at hne
      rw [if_neg h,
        if_pos ⟨List.length_pos.mpr hne.1, List.length_pos.mpr hne.2⟩,
        mul_comm]
  have htext : textScore a b * (4 / 10) =
      (4 / 10 : ℚ) * (if wordSet a.text ∪ wordSet b.text = ∅ then 0
        else jaccard (wordSet a.text) (wordSet b.text)) := by
    unfold textScore
    by_cases h : wordSet a.text ∪ wordSet b.text = ∅
    · rw [if_pos h, if_neg, mul_zero, zero_mul]
      simp [h]
    · rw [if_neg h, if_pos, mul_comm]
      exact Finset.card_pos.mpr (Finset.nonempty_iff_ne_empty.mpr h)
  rw [htag, htext]

/-- **C2.** `calculateSimilarity` is symmetric. -/
theorem calculateSimilarity_comm (a b : Node) :
    calculateSimilarity a b = calculateSimilarity b a := by
  unfold calculateSimilarity
  rw [tagScore_comm, textScore_comm]

/-- **C3.** `calculateSimilarity` always lies between 0 and 1. -/
theorem calculateSimilarity_mem_range (a b : Node) :
    0 ≤ calculateSimilarity a b ∧ calculateSimilarity a b ≤ 1 := by
  have h1 := tagScore_nonneg a b
  have h2 := tagScore_le_one a b
  have h3 := textScore_nonneg a b
  have h4 := textScore_le_one a b
  unfold calculateSimilarity
  constructor <;> nlinarith

/-- From a non-empty tag list, the union of the tag sets is non-empty. -/
theorem toFinset_union_card_pos {l1 : List String} (l2 : List String)
    (h : 0 < l1.length) : 0 < (l1.toFinset ∪ l2.toFinset).card := by
  rcases List.exists_mem_of_length_pos h with ⟨x, hx⟩
  exact Finset.card_pos.mpr
    ⟨x, Finset.mem_union_left _ (List.mem_toFinset.mpr hx)⟩

/-- **C10.** `calculateSimilarity` never divides by zero: replacing every
division the source performs by a checked division that fails on a zero
denominator succeeds on every pair of nodes, returning exactly the score of
`calculateSimilarity` — the tag division is guarded by both tag lists being
non-empty and the word division by the word union being non-empty, so the
result is always a well-defined rational. -/
theorem calculateSimilarityChecked_eq_some (a b : Node) :
    calculateSimilarityChecked a b = some (calculateSimilarity a b) := by
  unfold calculateSimilarityChecked calculateSimilarity checkedDiv tagScore
    textScore jaccard
  by_cases h1 : 0 < a.tags.length ∧ 0 < b.tags.length
  · have hu : ((a.tags.toFinset ∪ b.tags.toFinset).card : ℚ) ≠ 0 := by
      have hp := toFinset_union_card_pos b.tags h1.1
      exact_mod_cast hp.ne.symm
    by_cases h2 : 0 < (wordSet a.text ∪ wordSet b.text).card
    · have hw : (((wordSet a.text ∪ wordSet b.text).card : ℚ)) ≠ 0 := by
        exact_mod_cast h2.ne.symm
      simp [h1, h2, hu, hw]
    · simp [h1, h2, hu]
  · by_cases h2 : 0 < (wordSet a.text ∪ wordSet b.text).card
    · have hw : (((wordSet a.text ∪ wordSet b.text).card : ℚ)) ≠ 0 := by
        exact_mod_cast h2.ne.symm
      simp [h1, h2, hw]
    · simp [h1, h2]

/-! ## C4: identical text -/

unseal Rat.add Rat.mul Rat.inv in
/-- **C4 counterexample.** Two entries with the identical text `"hi"` (no
token longer than 3 characters) and no tags have text score 0, not 1, and
total similarity 0, so no edge is created at the default threshold 0.2 —
the claim fails for identical texts whose word set is empty. -/
theorem identicalText_counterexample :
    (Node.mk "a" "hi" [] "" 0).text = (Node.mk "b" "hi" [] "" 0).text ∧
    textScore (Node.mk "a" "hi" [] "" 0) (Node.mk "b" "hi" [] "" 0) ≠ 1 ∧
    calculateSimilarity (Node.mk "a" "hi" [] "" 0)
      (Node.mk "b" "hi" [] "" 0) = 0 ∧
    calculateConnections
      [Node.mk "a" "hi" [] "" 0, Node.mk "b" "hi" [] "" 0] (2 / 10) = [] := by
  refine ⟨rfl, ?_, ?_, ?_⟩ <;> decide

/-- **C4 (amended).** For two entries with identical text whose word set is
non-empty (the text has at least one token longer than 3 characters), the
text component of the similarity is 1; if additionally neither entry has
tags, the total similarity is exactly 0.4 and an edge between them is
created at the default threshold 0.2. -/
theorem identicalText_textScore_one (a b : Node)
    (htext : a.text = b.text) (hw : (wordSet a.text).Nonempty) :
    textScore a b = 1 ∧
    (a.tags = [] → b.tags = [] →
      calculateSimilarity a b = 4 / 10 ∧
      calculateConnections [a, b] (2 / 10) =
        [{ source := a.id, target := b.id,
           strength := calculateSimilarity a b }]) := by
  have hts : textScore a b = 1 := by
    unfold textScore
    rw [← htext, Finset.union_self, if_pos (Finset.card_pos.mpr hw)]
    exact jaccard_self_of_nonempty hw
  refine ⟨hts, fun ha hb => ?_⟩
  have hsim : calculateSimilarity a b = 4 / 10 := by
    unfold calculateSimilarity
    rw [hts]
    unfold tagScore
    rw [ha]
    norm_num
  have hle : (2 / 10 : ℚ) ≤ calculateSimilarity a b := by
    rw [hsim]; norm_num
  refine ⟨hsim, ?_⟩
  simp [calculateConnections, hle]

/-! ## Connection builder lemmas -/

theorem calculateConnections_eq_filterMap (nodes : List Node) (t : ℚ) :
    calculateConnections nodes t =
      (orderedPairs nodes).filterMap (fun p =>
        if t ≤ calculateSimilarity p.1 p.2 then some (mkLink p) else none) := by
  induction nodes with
  | nil => rfl
  | cons n rest ih =>
    simp only [calculateConnections, orderedPairs, List.filterMap_append,
      List.filterMap_map, ih]
    rfl

theorem mem_calculateConnections {nodes : List Node} {t : ℚ} {l : Link} :
    l ∈ calculateConnections nodes t ↔
      ∃ p ∈ orderedPairs nodes,
        t ≤ calculateSimilarity p.1 p.2 ∧ l = mkLink p := by
  rw [calculateConnections_eq_filterMap]
  simp only [List.mem_filterMap]
  constructor
  · rintro ⟨p, hp, hsome⟩
    by_cases h : t ≤ calculateSimilarity p.1 p.2
    · rw [if_pos h] at hsome
      exact ⟨p, hp, h, (Option.some_inj.mp hsome).symm⟩
    · rw [if_neg h] at hsome
      cases hsome
  · rintro ⟨p, hp, h, rfl⟩
    exact ⟨p, hp, by rw [if_pos h]⟩

/-- **C5.** Threshold monotonicity and the emission criterion: for
`t1 < t2`, every link built at threshold `t2` is also built at threshold
`t1`; and in general a link is emitted exactly when its pair's similarity
score is at least the active threshold. -/
theorem calculateConnections_threshold_spec (nodes : List Node) (t1 t2 : ℚ)
    (h12 : t1 < t2) :
    (∀ l ∈ calculateConnections nodes t2, l ∈ calculateConnections nodes t1) ∧
    (∀ (t : ℚ) (l : Link), l ∈ calculateConnections nodes t ↔
      ∃ p ∈ orderedPairs nodes,
        t ≤ calculateSimilarity p.1 p.2 ∧ l = mkLink p) := by
  refine ⟨?_, fun t l => mem_calculateConnections⟩
  intro l hl
  rcases mem_calculateConnections.mp hl with ⟨p, hp, hle, rfl⟩
  exact mem_calculateConnections.mpr ⟨p, hp, le_trans h12.le hle, rfl⟩

theorem orderedPairs_mem {p : Node × Node} {nodes : List Node}
    (h : p ∈ orderedPairs nodes) : p.1 ∈ nodes ∧ p.2 ∈ nodes := by
  induction nodes with
  | nil => cases h
  | cons n rest ih =>
    simp only [orderedPairs, List.mem_append, List.mem_map] at h
    rcases h with ⟨m, hm, rfl⟩ | h
    · exact ⟨List.mem_cons_self _ _, List.mem_cons_of_mem _ hm⟩
    · rcases ih h with ⟨h1, h2⟩
      exact ⟨List.mem_cons_of_mem _ h1, List.mem_cons_of_mem _ h2⟩

theorem orderedPairs_id_ne {nodes : List Node}
    (hnd : (nodes.map Node.id).Nodup) :
    ∀ p ∈ orderedPairs nodes, p.1.id ≠ p.2.id := by
  induction nodes with
  | nil => intro p hp; cases hp
  | cons n rest ih =>
    intro p hp
    simp only [List.map_cons, List.nodup_cons] at hnd
    simp only [orderedPairs, List.mem_append, List.mem_map] at hp
    rcases hp with ⟨m, hm, rfl⟩ | hp
    · intro he
      exact hnd.1 (by rw [he]; exact List.mem_map_of_mem Node.id hm)
    · exact ih hnd.2 p hp

/-- Two links relate two different unordered pairs of ids: they agree
neither with the same orientation nor with the opposite one. -/
def distinctPair (l1 l2 : Link) : Prop :=
  ¬(l1.source = l2.source ∧ l1.target = l2.target) ∧
  ¬(l1.source = l2.target ∧ l1.target = l2.source)

theorem orderedPairs_pairwise {nodes : List Node}
    (hnd : (nodes.map Node.id).Nodup) :
    (orderedPairs nodes).Pairwise (fun p q =>
      ¬(p.1.id = q.1.id ∧ p.2.id = q.2.id) ∧
      ¬(p.1.id = q.2.id ∧ p.2.id = q.1.id)) := by
  induction nodes with
  | nil => exact List.Pairwise.nil
  | cons n rest ih =>
    simp only [List.map_cons, List.nodup_cons] at hnd
    rw [orderedPairs, List.pairwise_append]
    have hnotin : ∀ m ∈ rest, n.id ≠ m.id := by
      intro m hm he
      exact hnd.1 (by rw [he]; exact List.mem_map_of_mem Node.id hm)
    refine ⟨?_, ih hnd.2, ?_⟩
    · rw [List.pairwise_map]
      have hrest : rest.Pairwise (fun m1 m2 => m1.id ≠ m2.id) :=
        List.pairwise_map.mp hnd.2
      refine hrest.imp_of_mem ?_
      intro m1 m2 hm1 hm2 hne
      exact ⟨fun hc => hne hc.2, fun hc => hnotin m2 hm2 hc.1⟩
    · intro p hp q hq
      rcases List.mem_map.mp hp with ⟨m, hm, rfl⟩
      rcases orderedPairs_mem hq with ⟨hq1, hq2⟩
      exact ⟨fun hc => hnotin q.1 hq1 hc.1, fun hc => hnotin q.2 hq2 hc.1⟩

theorem calculateConnections_no_self {nodes : List Node} {t : ℚ}
    (hnd : (nodes.map Node.id).Nodup) :
    ∀ l ∈ calculateConnections nodes t, l.source ≠ l.target := by
  intro l hl
  rcases mem_calculateConnections.mp hl with ⟨p, hp, _, rfl⟩
  exact orderedPairs_id_ne hnd p hp

theorem calculateConnections_pairwise {nodes : List Node} {t : ℚ}
    (hnd : (nodes.map Node.id).Nodup) :
    (calculateConnections nodes t).Pairwise distinctPair := by
  rw [calculateConnections_eq_filterMap]
  refine List.Pairwise.filterMap _ ?_ (orderedPairs_pairwise hnd)
  intro p q hpq l hl lq hlq
  by_cases hp : t ≤ calculateSimilarity p.1 p.2
  · by_cases hq : t ≤ calculateSimilarity q.1 q.2
    · rw [if_pos hp] at hl
      rw [if_pos hq] at hlq
      cases hl
      cases hlq
      exact hpq
    · rw [if_neg hq] at hlq
      cases hlq
  · rw [if_neg hp] at hl
    cases hl

/-- **C7.** With unique node ids, the connection builder emits no self-edge
and at most one edge per unordered pair of nodes, in either orientation. -/
theorem calculateConnections_no_self_no_dup (nodes : List Node) (t : ℚ)
    (hnd : (nodes.map Node.id).Nodup) :
    (∀ l ∈ calculateConnections nodes t, l.source ≠ l.target) ∧
    (calculateConnections nodes t).Pairwise distinctPair :=
  ⟨calculateConnections_no_self hnd, calculateConnections_pairwise hnd⟩

/-! ## Connection count lemmas -/

theorem incrementFirst_length (nodes : List Node) (id : String) :
    (incrementFirst nodes id).length = nodes.length := by
  induction nodes with
  | nil => rfl
  | cons n rest ih =>
    unfold incrementFirst
    split
    · rfl
    · simp [ih]

theorem incrementFirst_map_id (nodes : List Node) (id : String) :
    (incrementFirst nodes id).map Node.id = nodes.map Node.id := by
  induction nodes with
  | nil => rfl
  | cons n rest ih =>
    unfold incrementFirst
    split
    · simp
    · simp [ih]

/-- With unique ids, the find-and-increment of `loadConstellationData` acts
pointwise: the node at any index is incremented exactly when its id is the
searched id. -/
theorem incrementFirst_getElem {nodes : List Node}
    (hnd : (nodes.map Node.id).Nodup) (id : String) (i : Nat) :
    (incrementFirst nodes id)[i]? =
      (nodes[i]?).map (fun n =>
        if n.id = id then { n with connections := n.connections + 1 }
        else n) := by
  induction nodes generalizing i with
  | nil => rfl
  | cons n rest ih =>
    simp only [List.map_cons, List.nodup_cons] at hnd
    by_cases hn : n.id = id
    · cases i with
      | zero => simp [incrementFirst, hn]
      | succ k =>
        simp only [incrementFirst, if_pos hn, List.getElem?_cons_succ]
        cases hk : rest[k]? with
        | none => rfl
        | some m =>
          have hm : m ∈ rest := by
            rcases List.getElem?_eq_some_iff.mp hk with ⟨hlt, hget⟩
            exact hget ▸ List.getElem_mem hlt
          have hne : m.id ≠ id := by
            intro he
            refine hnd.1 ?_
            rw [hn.trans he.symm]
            exact List.mem_map_of_mem Node.id hm
          simp [hne, hk]
    · cases i with
      | zero => simp [incrementFirst, hn]
      | succ k =>
        simp only [incrementFirst, if_neg hn, List.getElem?_cons_succ]
        exact ih hnd.2 k

theorem updateCounts_length (nodes : List Node) (links : List Link) :
    (updateCounts nodes links).length = nodes.length := by
  induction links generalizing nodes with
  | nil => rfl
  | cons l ls ih =>
    show (updateCounts
      (incrementFirst (incrementFirst nodes l.source) l.target) ls).length
      = nodes.length
    rw [ih, incrementFirst_length, incrementFirst_length]

theorem updateCounts_map_id (nodes : List Node) (links : List Link) :
    (updateCounts nodes links).map Node.id = nodes.map Node.id := by
  induction links generalizing nodes with
  | nil => rfl
  | cons l ls ih =>
    show (updateCounts
      (incrementFirst (incrementFirst nodes l.source) l.target) ls).map Node.id
      = nodes.map Node.id
    rw [ih, incrementFirst_map_id, incrementFirst_map_id]

/-- With unique ids, after the `links.forEach` pass the node at any index
has received one increment for each link whose source id matches it plus one
for each link whose target id matches it. -/
theorem updateCounts_getElem {nodes : List Node} {links : List Link}
    (hnd : (nodes.map Node.id).Nodup) (i : Nat) :
    (updateCounts nodes links)[i]? =
      (nodes[i]?).map (fun n =>
        { n with connections := n.connections
            + links.countP (fun l => decide (l.source = n.id))
            + links.countP (fun l => decide (l.target = n.id)) }) := by
  induction links generalizing nodes with
  | nil =>
    show nodes[i]? = _
    cases nodes[i]? with
    | none => rfl
    | some n => rfl
  | cons l ls ih =>
    have key : updateCounts nodes (l :: ls) =
        updateCounts (incrementFirst (incrementFirst nodes l.source) l.target) ls := rfl
    have hnd1 : ((incrementFirst nodes l.source).map Node.id).Nodup := by
      rw [incrementFirst_map_id]; exact hnd
    have hnd2 : (((incrementFirst (incrementFirst nodes l.source) l.target)).map Node.id).Nodup := by
      rw [incrementFirst_map_id, incrementFirst_map_id]; exact hnd
    rw [key, ih hnd2, incrementFirst_getElem hnd1,
      incrementFirst_getElem hnd, Option.map_map, Option.map_map]
    cases h : nodes[i]? with
    | none => rfl
    | some n =>
      simp only [Option.map_some', Function.comp, Option.some_inj]
      by_cases hs : n.id = l.source <;> by_cases ht : n.id = l.target
      · have hst : l.source = l.target := hs.symm.trans ht
        simp [hs, ht, hst, List.countP_cons, Node.mk.injEq, eq_comm]
        omega
      · have hst : l.source ≠ l.target := fun hc => ht (hs.trans hc)
        simp [hs, ht, hst, hst.symm, List.countP_cons, Node.mk.injEq,
          eq_comm]
        omega
      · have hst : l.source ≠ l.target := fun hc => hs (ht.trans hc.symm)
        simp [hs, ht, hst, hst.symm, List.countP_cons, Node.mk.injEq,
          eq_comm]
        omega
      · simp [hs, ht, List.countP_cons, Node.mk.injEq, eq_comm]

/-- When no link is a self-link, counting links touching an id splits into
source matches plus target matches. -/
theorem countP_or_eq_add {ls : List Link} {id : String}
    (h : ∀ l ∈ ls, l.source ≠ l.target) :
    ls.countP (fun l => decide (l.source = id ∨ l.target = id)) =
      ls.countP (fun l => decide (l.source = id)) +
      ls.countP (fun l => decide (l.target = id)) := by
  induction ls with
  | nil => rfl
  | cons l ls ih =>
    have hl := h l (List.mem_cons_self _ _)
    have hrest := ih (fun x hx => h x (List.mem_cons_of_mem _ hx))
    rw [List.countP_cons, List.countP_cons, List.countP_cons, hrest]
    by_cases hs : l.source = id <;> by_cases ht : l.target = id
    · exact absurd (hs.trans ht.symm) hl
    · simp [hs, ht]
      omega
    · simp [hs, ht]
      omega
    · simp [hs, ht]

/-- **C6.** After every build pass that produces a graph, each node's
connection count equals the number of links whose source id or target id
equals the node's id, provided node ids are unique. -/
theorem loadConstellationData_connectionCount (thoughts : List Entry)
    (t : ℚ) (ns : List Node) (ls : List Link)
    (hres : loadConstellationData thoughts t = .graph ns ls)
    (hnd : (ns.map Node.id).Nodup) :
    ∀ n ∈ ns, n.connections =
      ls.countP (fun l => decide (l.source = n.id ∨ l.target = n.id)) := by
  simp only [loadConstellationData] at hres
  by_cases hempty : (thoughts.filter (fun th => !th.archived)).length = 0
  · rw [if_pos hempty] at hres
    cases hres
  · rw [if_neg hempty] at hres
    set base := (thoughts.filter (fun th => !th.archived)).map mkNode with hbase
    injection hres with hns hls
    have hndbase : (base.map Node.id).Nodup := by
      have := updateCounts_map_id base (calculateConnections base t)
      rw [← hns] at hnd
      rwa [this] at hnd
    intro n hn
    rw [← hns] at hn
    rcases List.mem_iff_getElem?.mp hn with ⟨i, hi⟩
    rw [updateCounts_getElem hndbase i] at hi
    rcases Option.map_eq_some'.mp hi with ⟨n0, hn0, hfn⟩
    have hzero : n0.connections = 0 := by
      rw [hbase, List.getElem?_map] at hn0
      rcases Option.map_eq_some'.mp hn0 with ⟨th, _, hth⟩
      rw [← hth]
      rfl
    have hid : n.id = n0.id := by rw [← hfn]
    have hself : ∀ l ∈ calculateConnections base t, l.source ≠ l.target :=
      calculateConnections_no_self hndbase
    rw [← hls, hid, countP_or_eq_add hself, ← hfn]
    simp [hzero]

/-! ## Hierarchical layout lemmas -/

theorem byConnectionsDesc_trans :
    ∀ a b c : Node, byConnectionsDesc a b → byConnectionsDesc b c →
      byConnectionsDesc a c := by
  intro a b c hab hbc
  simp only [byConnectionsDesc, decide_eq_true_eq] at hab hbc ⊢
  omega

theorem byConnectionsDesc_total :
    ∀ a b : Node, byConnectionsDesc a b || byConnectionsDesc b a := by
  intro a b
  simp only [byConnectionsDesc]
  by_cases h : b.connections ≤ a.connections
  · simp [h]
  · simp [h]
    omega

theorem length_hierarchicalSorted (nodes : List Node) :
    (hierarchicalSorted nodes).length = nodes.length := by
  simp [hierarchicalSorted]

theorem hierarchicalSorted_pairwise (nodes : List Node) :
    (hierarchicalSorted nodes).Pairwise
      (fun a b => b.connections ≤ a.connections) := by
  have h := List.sorted_mergeSort byConnectionsDesc_trans
    byConnectionsDesc_total nodes
  exact h.imp (fun hab => by
    simpa [byConnectionsDesc, decide_eq_true_eq] using hab)

theorem hierarchicalSorted_perm (nodes : List Node) :
    (hierarchicalSorted nodes).Perm nodes :=
  List.mergeSort_perm nodes byConnectionsDesc

theorem hierarchicalSorted_stable (nodes : List Node) (a b : Node)
    (hsub : List.Sublist [a, b] nodes)
    (heq : a.connections = b.connections) :
    List.Sublist [a, b] (hierarchicalSorted nodes) := by
  refine List.sublist_mergeSort byConnectionsDesc_trans
    byConnectionsDesc_total ?_ hsub
  exact List.pairwise_pair.mpr (by simp [byConnectionsDesc, heq])

theorem applyHierarchicalLayout_getElem (nodes : List Node) (w h : ℚ)
    (i : Nat) :
    (applyHierarchicalLayout nodes w h)[i]? =
      ((hierarchicalSorted nodes)[i]?).map
        (fun nd => (nd, hierarchicalPosition nodes.length w h i)) := by
  simp only [applyHierarchicalLayout, List.enum, List.getElem?_map,
    List.getElem?_enumFrom, length_hierarchicalSorted, Option.map_map]
  cases (hierarchicalSorted nodes)[i]? <;> simp

theorem hierarchicalPosition_y_lt (n : Nat) (w h : ℚ) (hh : 0 < h)
    {i j : Nat}
    (hij : i / nodesPerLayerOf n < j / nodesPerLayerOf n) :
    (hierarchicalPosition n w h i).2 < (hierarchicalPosition n w h j).2 := by
  simp only [hierarchicalPosition]
  have h6 : (0 : ℚ) < h / ((5 : Nat) + 1) := by positivity
  refine mul_lt_mul_of_pos_left ?_ h6
  have hlt : (i / nodesPerLayerOf n) + 1 < (j / nodesPerLayerOf n) + 1 := by
    omega
  exact_mod_cast hlt

/-- **C8.** The hierarchical layout sorts nodes descending by connection
count (a stable permutation of the input, ties keeping original order),
assigns the node of rank `i` the position of layer `i / ceil(total/5)`
(nodes of a layer evenly spaced along x, layers evenly spaced in y), with a
strictly smaller y for a smaller layer; with 12 nodes there are 3 nodes per
layer, ranks 0-2 form layer 0, their connection counts dominate those of
every rank at least 3, and their y coordinates are strictly smaller. -/
theorem applyHierarchicalLayout_spec (nodes : List Node) (width height : ℚ)
    (hh : 0 < height) :
    ((hierarchicalSorted nodes).Pairwise
      fun a b => b.connections ≤ a.connections) ∧
    (hierarchicalSorted nodes).Perm nodes ∧
    (∀ a b : Node, List.Sublist [a, b] nodes →
      a.connections = b.connections →
      List.Sublist [a, b] (hierarchicalSorted nodes)) ∧
    (∀ i : Nat, (applyHierarchicalLayout nodes width height)[i]? =
      ((hierarchicalSorted nodes)[i]?).map
        (fun nd => (nd, hierarchicalPosition nodes.length width height i))) ∧
    (∀ i j : Nat,
      i / nodesPerLayerOf nodes.length < j / nodesPerLayerOf nodes.length →
      (hierarchicalPosition nodes.length width height i).2 <
        (hierarchicalPosition nodes.length width height j).2) ∧
    (nodes.length = 12 →
      nodesPerLayerOf nodes.length = 3 ∧
      (∀ i, i < 3 → i / nodesPerLayerOf nodes.length = 0) ∧
      (∀ i j a b, i < 3 → 3 ≤ j →
        (hierarchicalSorted nodes)[i]? = some a →
        (hierarchicalSorted nodes)[j]? = some b →
        b.connections ≤ a.connections ∧
        (hierarchicalPosition nodes.length width height i).2 <
          (hierarchicalPosition nodes.length width height j).2)) := by
  refine ⟨hierarchicalSorted_pairwise nodes, hierarchicalSorted_perm nodes,
    hierarchicalSorted_stable nodes,
    applyHierarchicalLayout_getElem nodes width height,
    fun i j => hierarchicalPosition_y_lt nodes.length width height hh,
    fun h12 => ⟨?_, ?_, ?_⟩⟩
  · rw [h12]
    rfl
  · intro i hi
    rw [h12]
    show i / 3 = 0
    omega
  · intro i j a b hi3 h3j ha hb
    have hnpl : nodesPerLayerOf nodes.length = 3 := by rw [h12]; rfl
    rcases List.getElem?_eq_some_iff.mp ha with ⟨hilt, hia⟩
    rcases List.getElem?_eq_some_iff.mp hb with ⟨hjlt, hjb⟩
    constructor
    · have hconn := (List.pairwise_iff_getElem.mp
        (hierarchicalSorted_pairwise nodes)) i j hilt hjlt (by omega)
      rw [hia, hjb] at hconn
      exact hconn
    · refine hierarchicalPosition_y_lt nodes.length width height hh ?_
      rw [hnpl]
      have hi0 : i / 3 = 0 := by omega
      have hj1 : 1 ≤ j / 3 := by omega
      omega

/-! ## Storage read and empty state -/

/-- **C9.** The entry read never throws: it is a total function of the
storage state, returning the empty list on a missing key, unparseable JSON
or a non-array value; and whenever the resulting active entry set is empty,
the build pass renders the explicit empty state instead of a graph. -/
theorem getThoughts_total_empty_state :
    (getThoughts .absent = [] ∧ getThoughts .invalid = [] ∧
      getThoughts .parsedNonArray = []) ∧
    (∀ (s : StoredItem) (t : ℚ),
      (getThoughts s).filter (fun e => !e.archived) = [] →
        loadConstellationData (getThoughts s) t = .empty) := by
  refine ⟨⟨rfl, rfl, rfl⟩, ?_⟩
  intro s t hempty
  simp [loadConstellationData, hempty]

/-! ## Witnesses -/

/-- Concrete witness entries and nodes used to instantiate the
hypothesis-bearing theorems.  The two entries share the word "hello",
"world" and "again" and one of two tags. -/
def wEntryA : Entry :=
  { id := "a", text := "hello world again", tags := some ["focus", "calm"],
    date := "2025-01-01", archived := false }

def wEntryB : Entry :=
  { id := "b", text := "hello world quietly", tags := some ["calm"],
    date := "2025-01-02", archived := false }

def wNodeA : Node := mkNode wEntryA

def wNodeB : Node := mkNode wEntryB

unseal Rat.add Rat.mul Rat.inv in
/-- Witness for the amended C4 at a concrete input: identical text
"hello world" with a non-empty word set. -/
theorem identicalText_textScore_one_witness :
    (Node.mk "a" "hello world" [] "" 0).text =
      (Node.mk "b" "hello world" [] "" 0).text ∧
    (wordSet (Node.mk "a" "hello world" [] "" 0).text).Nonempty ∧
    textScore (Node.mk "a" "hello world" [] "" 0)
      (Node.mk "b" "hello world" [] "" 0) = 1 :=
  ⟨rfl, by decide,
    (identicalText_textScore_one _ _ rfl (by decide)).1⟩

unseal Rat.add Rat.mul Rat.inv in
/-- Witness for C5 at a concrete input: two nodes, thresholds 0.1 < 0.3. -/
theorem calculateConnections_threshold_spec_witness :
    (1 / 10 : ℚ) < 3 / 10 ∧
    (∀ l ∈ calculateConnections [wNodeA, wNodeB] (3 / 10),
      l ∈ calculateConnections [wNodeA, wNodeB] (1 / 10)) :=
  ⟨by decide,
    (calculateConnections_threshold_spec [wNodeA, wNodeB] (1 / 10) (3 / 10)
      (by decide)).1⟩

/-- The node and link arrays of the C6 witness build. -/
def wGraphNodes : List Node :=
  [{ wNodeA with connections := 1 }, { wNodeB with connections := 1 }]

def wGraphLinks : List Link :=
  [{ source := "a", target := "b",
     strength := calculateSimilarity wNodeA wNodeB }]

unseal Rat.add Rat.mul Rat.inv in
/-- Witness for C6 at a concrete input: two connected entries with unique
ids; both nodes end with connection count 1. -/
theorem loadConstellationData_connectionCount_witness :
    loadConstellationData [wEntryA, wEntryB] (2 / 10) =
      .graph wGraphNodes wGraphLinks ∧
    ((wGraphNodes.map Node.id).Nodup) ∧
    (∀ n ∈ wGraphNodes, n.connections =
      wGraphLinks.countP
        (fun l => decide (l.source = n.id ∨ l.target = n.id))) :=
  ⟨by decide, by decide,
    loadConstellationData_connectionCount [wEntryA, wEntryB] (2 / 10)
      wGraphNodes wGraphLinks (by decide) (by decide)⟩

unseal Rat.add Rat.mul Rat.inv in
/-- Witness for C7 at a concrete input: three nodes with unique ids. -/
theorem calculateConnections_no_self_no_dup_witness :
    (([wNodeA, wNodeB].map Node.id).Nodup) ∧
    (∀ l ∈ calculateConnections [wNodeA, wNodeB] (2 / 10),
      l.source ≠ l.target) ∧
    (calculateConnections [wNodeA, wNodeB] (2 / 10)).Pairwise distinctPair :=
  ⟨by decide,
    (calculateConnections_no_self_no_dup [wNodeA, wNodeB] (2 / 10)
      (by decide)).1,
    (calculateConnections_no_self_no_dup [wNodeA, wNodeB] (2 / 10)
      (by decide)).2⟩

/-- The twelve concrete nodes of the C8 witness, with descending connection
counts 11, 10, ..., 0. -/
def wDozen : List Node :=
  (List.range 12).map (fun k =>
    { id := toString k, text := "", tags := [], date := "",
      connections := 11 - k })

unseal Rat.add Rat.mul Rat.inv in
/-- Witness for C8 at a concrete input: 12 nodes, canvas 800 by 600. -/
theorem applyHierarchicalLayout_spec_witness :
    (0 : ℚ) < 600 ∧ wDozen.length = 12 ∧
    (nodesPerLayerOf wDozen.length = 3 ∧
      (∀ i, i < 3 → i / nodesPerLayerOf wDozen.length = 0) ∧
      (∀ i j a b, i < 3 → 3 ≤ j →
        (hierarchicalSorted wDozen)[i]? = some a →
        (hierarchicalSorted wDozen)[j]? = some b →
        b.connections ≤ a.connections ∧
        (hierarchicalPosition wDozen.length 800 600 i).2 <
          (hierarchicalPosition wDozen.length 800 600 j).2)) :=
  ⟨by decide, by decide,
    (applyHierarchicalLayout_spec wDozen 800 600 (by decide)).2.2.2.2.2
      (by decide)⟩

/-- Witness for C9 at a concrete input: corrupted storage yields the empty
list, and the build pass on it renders the empty state. -/
theorem getThoughts_total_empty_state_witness :
    (getThoughts .invalid).filter (fun e => !e.archived) = [] ∧
    loadConstellationData (getThoughts .invalid) (2 / 10) = .empty :=
  ⟨rfl, (getThoughts_total_empty_state).2 .invalid (2 / 10) rfl⟩

end Constellation
